import Mathlib

/-!
Verification of the grubby front end (a Ruby-like language lexer/parser in Go)
against its natural-language specification.

Shallow embedding conventions:
  - Go strings are `List Char` inside the lexer machinery, `String` in AST nodes.
  - Go channels/goroutines are modelled by a pure function that returns the full
    emitted token stream; a Go `panic` is modelled as `Except.error` while a
    gracefully emitted error *token* stays inside the `.ok` token stream.
  - `float64` literal values are modelled as exact decimal rationals (`Rat`).
  - Fuel (`Nat`) makes every recursion total; running out of fuel is the
    distinct failure `outOfFuel`, never confused with a lexical/grammar error.
-/

namespace Grubby

/-- AST node model, from `ast/nodes.go` (ConstantInt, ConstantFloat,
SimpleString, Symbol, BareReference, CallExpression, ClassDecl) plus the node
variants the test corpus requires but whose declarations are not under `src/`
(InstanceVariable, Boolean, Nil, Array, IfBlock, InterpolatedString, and the
optional `Target` field of CallExpression), modelled from the spec data model. -/
inductive Node where
  | constantInt (value : Int)
  | constantFloat (value : Rat)
  | simpleString (value : String)
  | interpolatedString (value : String)
  | symbol (name : String)
  | bareReference (name : String)
  | instanceVariable (name : String)
  | boolean (value : Bool)
  | nilNode
  | array (nodes : List Node)
  | callExpression (target : Option Node) (func : Node) (args : List Node)
  | ifBlock (condition : Node) (body : List Node) (elseList : List Node)
  | classDecl (name : String) (superClass : Option String) (body : List Node)

/-! ## Embedding of `src/parser/better_lexer.go` -/

namespace BL

/-- The `tokenType` enumeration of `better_lexer.go`. -/
inductive TokType where
  | err | eofT | integer | float | strT | symbolT | reference
  | capitalizedReference | whitespace | newline | lparen | rparen | comma
  | kDef | kEnd | kClass | kModule | kTrue | kFalse
  | lessThan | greaterThan | colonT | equalT | bang | tilde | plus | minus
  | star | lbracket | rbracket | lbraceT | rbraceT | dollarSign | atSign
  deriving DecidableEq

/-- The `token` struct of `better_lexer.go`: a kind tag plus the matched text. -/
structure Tok where
  typ : TokType
  value : List Char
  deriving DecidableEq

/-- Character class `'0' <= r && r <= '9'` used by the dispatch state. -/
def isDigitRune (c : Char) : Bool := '0' ≤ c && c ≤ '9'

/-- Character class for identifiers from the dispatch state:
`('a' <= r && r <= 'z') || r == '_' || ('A' <= r && r <= 'Z')`. -/
def isLetterRune (c : Char) : Bool :=
  ('a' ≤ c && c ≤ 'z') || c = '_' || ('A' ≤ c && c ≤ 'Z')

/-- Maximal run of decimal digits together with the remaining input. -/
def takeDigits : List Char → List Char × List Char
  | [] => ([], [])
  | c :: cs =>
    if isDigitRune c then
      let p := takeDigits cs
      (c :: p.1, p.2)
    else ([], c :: cs)

/-- Modelled from the spec: body scan of `lexSingleQuoteString` (not under
`src/`). The only recognized escape is backslash-quote and it is kept
verbatim in the token value; the scan stops at the first unescaped quote and
returns the body together with the input after the closing quote. `none`
means the literal is unterminated. -/
def sqScan : List Char → Option (List Char × List Char)
  | [] => none
  | '\\' :: '\'' :: t =>
    (sqScan t).map (fun p => ('\\' :: '\'' :: p.1, p.2))
  | '\'' :: _t => some ([], _t)
  | c :: t => (sqScan t).map (fun p => (c :: p.1, p.2))

/-- Identifier characters (letters, digits, underscore). -/
def isIdentChar (c : Char) : Bool := isLetterRune c || isDigitRune c

/-- Symbol characters: identifier characters plus the legal symbol specials
`!` and `?` (spec: special characters are legal trailing symbol characters). -/
def isSymChar (c : Char) : Bool := isIdentChar c || c = '!' || c = '?'

/-- Maximal run of symbol characters. -/
def takeSym : List Char → List Char × List Char
  | [] => ([], [])
  | c :: cs =>
    if isSymChar c then
      let p := takeSym cs
      (c :: p.1, p.2)
    else ([], c :: cs)

/-- Maximal run of intra-line whitespace (space and tab). -/
def takeWs : List Char → List Char × List Char
  | [] => ([], [])
  | c :: cs =>
    if c = ' ' || c = '\t' then
      let p := takeWs cs
      (c :: p.1, p.2)
    else ([], c :: cs)

/-- Maximal run of newline characters. -/
def takeNl : List Char → List Char × List Char
  | [] => ([], [])
  | c :: cs =>
    if c = '\n' then
      let p := takeNl cs
      (c :: p.1, p.2)
    else ([], c :: cs)

/-- Modelled from the spec: identifier scan of `lexReference` (not under
`src/`): a maximal identifier run with one optional trailing `!` or `?`
(trailing specials are permitted and significant). -/
def takeRef (cs : List Char) : List Char × List Char :=
  let p := takeIdentRun cs
  match p.2 with
  | '!' :: r => (p.1 ++ ['!'], r)
  | '?' :: r => (p.1 ++ ['?'], r)
  | _ => p
where
  takeIdentRun : List Char → List Char × List Char
    | [] => ([], [])
    | c :: cs =>
      if isIdentChar c then
        let q := takeIdentRun cs
        (c :: q.1, q.2)
      else ([], c :: cs)

/-- Modelled from the spec: keyword recognition of `lexReference` (not under
`src/`). The reserved words of the `better_lexer.go` token enumeration map to
their dedicated kinds; otherwise a leading uppercase letter yields a
capitalized reference and anything else a bare reference. -/
def refType (v : List Char) : TokType :=
  if v = "def".toList then .kDef
  else if v = "end".toList then .kEnd
  else if v = "class".toList then .kClass
  else if v = "module".toList then .kModule
  else if v = "true".toList then .kTrue
  else if v = "false".toList then .kFalse
  else
    match v with
    | c :: _ => if 'A' ≤ c && c ≤ 'Z' then .capitalizedReference else .reference
    | [] => .reference

/-- The lexer states: the dispatch state `lexAnything` of `better_lexer.go`
and the specialized recognizers it returns (whose bodies are not under `src/`
and are modelled from the spec). -/
inductive St where
  | anything | number | singleQuote | symbolS | whitespaceS | newlinesS
  | referenceS | commentS
  deriving DecidableEq

/-- Scanner cursor: `pending` is the text between `start` and `pos`
(the not-yet-emitted substring), `rest` is the input from `pos` on. -/
structure Core where
  pending : List Char
  rest : List Char

/-- A run of the lexer that does not complete normally: a Go `panic`
(`unknownRune` is the `panic` in `lexAnything`'s default case) or fuel
exhaustion of the embedding. -/
inductive LexFailure where
  | unknownRune (c : Char)
  | errorToken (v : List Char)
  | badNumber (v : List Char)
  | outOfFuel
  deriving DecidableEq

/-- Prepend an emitted token to the stream produced by the rest of the run. -/
def emitThen (t : Tok) (k : Except LexFailure (List Tok)) :
    Except LexFailure (List Tok) :=
  k.map (t :: ·)

/-- `peek() == eof` on the remaining input: true at end of input, and also
when the next rune is a literal NUL, because `better_lexer.go` declares
`eof rune = iota`, i.e. the end-of-input sentinel is rune 0 and a NUL
character in the input is indistinguishable from it. -/
def peekEof (cs : List Char) : Bool :=
  match cs with
  | [] => true
  | d :: _ => d = Char.ofNat 0

/-- The tokens emitted after `lexAnything`'s loop breaks with nothing
pending: an error token with empty text when un-lexed input remains
(`l.start != len(l.input)` with `start = pos`), then the EOF token. -/
def finishTail (cs : List Char) : List Tok :=
  if cs = [] then [⟨.eofT, []⟩] else [⟨.err, []⟩, ⟨.eofT, []⟩]

/-- The lexer state machine: `run` from `better_lexer.go` driving the states.
The `anything` case is the faithful embedding of `lexAnything` (same dispatch
conditions in the same order; the default case is the `panic`, modelled as
`Except.error`). The `case r == eof` of the dispatch matches the rune-0
sentinel, which a literal NUL character in the input also decodes to: the
NUL is consumed into the pending (un-emitted) region, and the loop then
breaks when `peek()` is the sentinel — really at end of input or before
another NUL — emitting an error token for the pending text and then the EOF
token, or keeps looping otherwise. The `(`/`)`/`,` cases fall through to the
same `peek() == eof` loop-break check instead of re-entering the dispatch.
At end of input the run emits an error token when un-emitted text is pending
and then the EOF token. The remaining cases are the specialized recognizers,
modelled from the spec where their bodies are not under `src/`: each emits
its token and returns to the dispatch state, except an unterminated
single-quoted literal, which emits an error token and halts production
without an EOF token. -/
def brun : Nat → St → Core → Except LexFailure (List Tok)
  | 0, _, _ => .error .outOfFuel
  | Nat.succ fuel, st, core =>
    match st with
    | .anything =>
      match core.rest with
      | [] =>
        if core.pending = [] then .ok [⟨.eofT, []⟩]
        else .ok [⟨.err, core.pending⟩, ⟨.eofT, []⟩]
      | c :: cs =>
        if isDigitRune c then brun fuel .number core
        else if c = '\'' then brun fuel .singleQuote ⟨core.pending ++ [c], cs⟩
        else if c = ':' then
          brun fuel .symbolS ⟨(core.pending ++ [c]).drop 1, cs⟩
        else if c = ' ' || c = '\t' then brun fuel .whitespaceS core
        else if c = '\n' then brun fuel .newlinesS core
        else if isLetterRune c then brun fuel .referenceS core
        else if c = '(' then
          if peekEof cs then .ok (⟨.lparen, core.pending ++ [c]⟩ :: finishTail cs)
          else emitThen ⟨.lparen, core.pending ++ [c]⟩ (brun fuel .anything ⟨[], cs⟩)
        else if c = ')' then
          if peekEof cs then .ok (⟨.rparen, core.pending ++ [c]⟩ :: finishTail cs)
          else emitThen ⟨.rparen, core.pending ++ [c]⟩ (brun fuel .anything ⟨[], cs⟩)
        else if c = ',' then
          if peekEof cs then .ok (⟨.comma, core.pending ++ [c]⟩ :: finishTail cs)
          else emitThen ⟨.comma, core.pending ++ [c]⟩ (brun fuel .anything ⟨[], cs⟩)
        else if c = '#' then brun fuel .commentS ⟨core.pending ++ [c], cs⟩
        else if c = '<' then
          emitThen ⟨.lessThan, core.pending ++ [c]⟩ (brun fuel .anything ⟨[], cs⟩)
        else if c = '>' then
          emitThen ⟨.greaterThan, core.pending ++ [c]⟩ (brun fuel .anything ⟨[], cs⟩)
        else if c = '=' then
          emitThen ⟨.equalT, core.pending ++ [c]⟩ (brun fuel .anything ⟨[], cs⟩)
        else if c = '!' then
          emitThen ⟨.bang, core.pending ++ [c]⟩ (brun fuel .anything ⟨[], cs⟩)
        else if c = '~' then
          emitThen ⟨.tilde, core.pending ++ [c]⟩ (brun fuel .anything ⟨[], cs⟩)
        else if c = '+' then
          emitThen ⟨.plus, core.pending ++ [c]⟩ (brun fuel .anything ⟨[], cs⟩)
        else if c = '-' then
          emitThen ⟨.minus, core.pending ++ [c]⟩ (brun fuel .anything ⟨[], cs⟩)
        else if c = '*' then
          emitThen ⟨.star, core.pending ++ [c]⟩ (brun fuel .anything ⟨[], cs⟩)
        else if c = '[' then
          emitThen ⟨.lbracket, core.pending ++ [c]⟩ (brun fuel .anything ⟨[], cs⟩)
        else if c = ']' then
          emitThen ⟨.rbracket, core.pending ++ [c]⟩ (brun fuel .anything ⟨[], cs⟩)
        else if c = Char.ofNat 123 then
          emitThen ⟨.lbraceT, core.pending ++ [c]⟩ (brun fuel .anything ⟨[], cs⟩)
        else if c = Char.ofNat 125 then
          emitThen ⟨.rbraceT, core.pending ++ [c]⟩ (brun fuel .anything ⟨[], cs⟩)
        else if c = '$' then
          emitThen ⟨.dollarSign, core.pending ++ [c]⟩ (brun fuel .anything ⟨[], cs⟩)
        else if c = '@' then
          emitThen ⟨.atSign, core.pending ++ [c]⟩ (brun fuel .anything ⟨[], cs⟩)
        else if c = Char.ofNat 0 then
          if peekEof cs then .ok [⟨.err, core.pending ++ [c]⟩, ⟨.eofT, []⟩]
          else brun fuel .anything ⟨core.pending ++ [c], cs⟩
        else .error (.unknownRune c)
    | .number =>
      let p := takeDigits core.rest
      match p.2 with
      | '.' :: r2 =>
        if (match r2 with | d :: _ => isDigitRune d | [] => false) then
          let q := takeDigits r2
          emitThen ⟨.float, core.pending ++ p.1 ++ '.' :: q.1⟩
            (brun fuel .anything ⟨[], q.2⟩)
        else
          emitThen ⟨.integer, core.pending ++ p.1⟩
            (brun fuel .anything ⟨[], '.' :: r2⟩)
      | _ =>
        emitThen ⟨.integer, core.pending ++ p.1⟩ (brun fuel .anything ⟨[], p.2⟩)
    | .singleQuote =>
      match sqScan core.rest with
      | none => .ok [⟨.err, core.pending ++ core.rest⟩]
      | some (body, r) =>
        emitThen ⟨.strT, body⟩ (brun fuel .anything ⟨[], r⟩)
    | .symbolS =>
      let p := takeSym core.rest
      emitThen ⟨.symbolT, core.pending ++ p.1⟩ (brun fuel .anything ⟨[], p.2⟩)
    | .whitespaceS =>
      let p := takeWs core.rest
      emitThen ⟨.whitespace, core.pending ++ p.1⟩ (brun fuel .anything ⟨[], p.2⟩)
    | .newlinesS =>
      let p := takeNl core.rest
      emitThen ⟨.newline, core.pending ++ p.1⟩ (brun fuel .anything ⟨[], p.2⟩)
    | .referenceS =>
      let p := takeRef core.rest
      emitThen ⟨refType (core.pending ++ p.1), core.pending ++ p.1⟩
        (brun fuel .anything ⟨[], p.2⟩)
    | .commentS =>
      brun fuel .anything ⟨[], core.rest.dropWhile (fun c => !(c = '\n'))⟩

/-- Whole-input run of the better lexer: `NewBetterLexer(input)` followed by
draining the token channel. -/
def betterLex (fuel : Nat) (input : List Char) : Except LexFailure (List Tok) :=
  brun fuel .anything ⟨[], input⟩

/-- The dispatch conditions of `lexAnything`, in source order: a rune is
recognized when any case other than the `panic` default applies. The last
disjunct is the `case r == eof` — the rune-0 sentinel, which a literal NUL
character also matches, so a NUL never reaches the panic default. -/
def recognizedRune (c : Char) : Bool :=
  isDigitRune c || c = '\'' || c = ':' || c = ' ' || c = '\t' || c = '\n' ||
  isLetterRune c || c = '(' || c = ')' || c = ',' || c = '#' || c = '<' ||
  c = '>' || c = '=' || c = '!' || c = '~' || c = '+' || c = '-' || c = '*' ||
  c = '[' || c = ']' || c = Char.ofNat 123 || c = Char.ofNat 125 || c = '$' ||
  c = '@' || c = Char.ofNat 0

/-- Value of a digit character. -/
def digitVal (c : Char) : Nat := c.toNat - '0'.toNat

/-- Numeric value of a digit string (the digits-only core of `strconv.Atoi`;
every integer token the lexer emits is a plain digit run). `none` models the
`panic(err)` taken in `Lex` when the token text is not a number. -/
def atoi (v : List Char) : Option Int :=
  if v = [] then none
  else if v.all isDigitRune then
    some (Int.ofNat (v.foldl (fun acc c => 10 * acc + digitVal c) 0))
  else none

/-- Exact decimal value of a float token `digits.digits` (the value
`strconv.ParseFloat` is applied to in `Lex`; the `float64` rounding is
modelled away by keeping the exact rational). -/
def parseFloatDec (v : List Char) : Option Rat :=
  match splitDot v with
  | (intPart, some fracPart) =>
    if intPart ≠ [] ∧ fracPart ≠ [] ∧ intPart.all isDigitRune ∧
        fracPart.all isDigitRune then
      some (mkRat
        (Int.ofNat ((intPart ++ fracPart).foldl
          (fun acc c => 10 * acc + digitVal c) 0))
        (10 ^ fracPart.length))
    else none
  | (_, none) => none
where
  splitDot : List Char → List Char × Option (List Char)
    | [] => ([], none)
    | '.' :: t => ([], some t)
    | c :: t =>
      let p := splitDot t
      (c :: p.1, p.2)

/-- The symbol/value pair `Lex` hands to the grammar for one token: the
grammar token code (NODE, REF, ...) together with the `genericValue` node
when one is set. -/
inductive LexSym where
  | node (n : Node)
  | ref (n : Node)
  | capitalRef (n : Node)
  | lparen | rparen | comma | whitespaceSym | newlineSym | eofSym
  | kDef | kEnd | kClass | kModule | kTrue | kFalse
  | lessThan | greaterThan | colonSym | equalTo | bang | complement
  | positive | negative | star | lbracket | rbracket | lbrace | rbrace
  | dollarSign | atSign

/-- Per-token behavior of `BetterRubyLexer.Lex` from `better_lexer.go`:
integer and float tokens are converted to `ConstantInt`/`ConstantFloat`
nodes (a conversion failure is the `panic(err)`), strings/symbols/references
carry their node, punctuation maps to its token code, and an error token is
the `panic` in the `tokenTypeError` case — modelled as `Except.error`. -/
def lexToken : Tok → Except LexFailure LexSym
  | ⟨.integer, v⟩ =>
    match atoi v with
    | some i => .ok (.node (.constantInt i))
    | none => .error (.badNumber v)
  | ⟨.float, v⟩ =>
    match parseFloatDec v with
    | some q => .ok (.node (.constantFloat q))
    | none => .error (.badNumber v)
  | ⟨.strT, v⟩ => .ok (.node (.simpleString ⟨v⟩))
  | ⟨.symbolT, v⟩ => .ok (.node (.symbol ⟨v⟩))
  | ⟨.reference, v⟩ => .ok (.ref (.bareReference ⟨v⟩))
  | ⟨.capitalizedReference, v⟩ => .ok (.capitalRef (.bareReference ⟨v⟩))
  | ⟨.lparen, _⟩ => .ok .lparen
  | ⟨.rparen, _⟩ => .ok .rparen
  | ⟨.comma, _⟩ => .ok .comma
  | ⟨.whitespace, _⟩ => .ok .whitespaceSym
  | ⟨.newline, _⟩ => .ok .newlineSym
  | ⟨.eofT, _⟩ => .ok .eofSym
  | ⟨.kDef, _⟩ => .ok .kDef
  | ⟨.kEnd, _⟩ => .ok .kEnd
  | ⟨.kClass, _⟩ => .ok .kClass
  | ⟨.kModule, _⟩ => .ok .kModule
  | ⟨.kTrue, _⟩ => .ok .kTrue
  | ⟨.kFalse, _⟩ => .ok .kFalse
  | ⟨.lessThan, _⟩ => .ok .lessThan
  | ⟨.greaterThan, _⟩ => .ok .greaterThan
  | ⟨.colonT, _⟩ => .ok .colonSym
  | ⟨.equalT, _⟩ => .ok .equalTo
  | ⟨.bang, _⟩ => .ok .bang
  | ⟨.tilde, _⟩ => .ok .complement
  | ⟨.plus, _⟩ => .ok .positive
  | ⟨.minus, _⟩ => .ok .negative
  | ⟨.star, _⟩ => .ok .star
  | ⟨.lbracket, _⟩ => .ok .lbracket
  | ⟨.rbracket, _⟩ => .ok .rbracket
  | ⟨.lbraceT, _⟩ => .ok .lbrace
  | ⟨.rbraceT, _⟩ => .ok .rbrace
  | ⟨.dollarSign, _⟩ => .ok .dollarSign
  | ⟨.atSign, _⟩ => .ok .atSign
  | ⟨.err, v⟩ => .error (.errorToken v)

/-- A token is a terminal marker when it is the EOF marker or an error
token: the consumer stops pulling on either. -/
def isTerm (t : Tok) : Prop := t.typ = .eofT ∨ t.typ = .err

instance (t : Tok) : Decidable (isTerm t) := by
  unfold isTerm; infer_instance

/-- A token stream terminates correctly: it ends in a terminal tail — a
single final EOF marker, a single terminal error token (a halted
recognizer), or one error token immediately followed by the final EOF
marker (un-lexed text pending at end of input) — no terminal token occurs
anywhere before the tail, the EOF marker occurs at most once and only as
the last element, and nothing follows the tail. -/
def wellTerminated (toks : List Tok) : Prop :=
  ∃ front tail, toks = front ++ tail ∧ (∀ t ∈ front, ¬ isTerm t) ∧
    (tail = [⟨.eofT, []⟩] ∨ (∃ v, tail = [⟨.err, v⟩]) ∨
      (∃ v, tail = [⟨.err, v⟩, ⟨.eofT, []⟩]))

end BL

/-! ## Spec-modelled lexer and grammar for the parse pipeline

The lexer used by the parser tests (`parser.NewLexer`, the
ConcreteStatefulRubyLexer) and the goyacc grammar (`parser.RubyParse`) are
code of this repository that is not under `src/` — only their tests are.
They are modelled here from the spec, restricted to the token classes and
grammar rules the claims exercise. -/

namespace SpecLex

/-- Modelled from the spec: the token classes of the lexical analyzer that
the claims exercise, including the greedy multi-character
compound-assignment operators (`+=` and friends are single tokens). -/
inductive STok where
  | int (v : List Char)
  | flt (v : List Char)
  | strS (v : List Char)
  | sym (v : List Char)
  | ref (v : List Char)
  | capref (v : List Char)
  | ws | nl | atsign | lbracket | rbracket | equal
  | opEq (c : Char)
  | op (c : Char)
  | kClass | kEnd | kIf | kElsif | kElse | kTrue | kFalse | kNil
  | eofS
  | errS (v : List Char)
  deriving DecidableEq

open Grubby.BL in
/-- Modelled from the spec: keyword recognition of the lexical analyzer.
Reserved words become distinct token kinds; otherwise a leading uppercase
letter yields a capitalized reference, anything else a bare reference. -/
def identTok (v : List Char) : STok :=
  if v = "class".toList then .kClass
  else if v = "end".toList then .kEnd
  else if v = "if".toList then .kIf
  else if v = "elsif".toList then .kElsif
  else if v = "else".toList then .kElse
  else if v = "true".toList then .kTrue
  else if v = "false".toList then .kFalse
  else if v = "nil".toList then .kNil
  else
    match v with
    | c :: _ => if 'A' ≤ c && c ≤ 'Z' then .capref v else .ref v
    | [] => .ref v

open Grubby.BL in
/-- Modelled from the spec: scan of one numeric literal. Digits are scanned;
a decimal point followed by further digits promotes the token to a floating
literal, otherwise it is an integer literal. -/
def scanNumber (cs : List Char) : STok × List Char :=
  let p := takeDigits cs
  match p.2 with
  | '.' :: r2 =>
    if (match r2 with | d :: _ => isDigitRune d | [] => false) then
      let q := takeDigits r2
      (.flt (p.1 ++ '.' :: q.1), q.2)
    else (.int p.1, '.' :: r2)
  | _ => (.int p.1, p.2)

open Grubby.BL in
/-- Modelled from the spec: the stateful lexical analyzer behind
`parser.NewLexer` (not under `src/`), restricted to the claims' token
classes. Single-quoted literals keep the backslash-quote escape verbatim
(`sqScan`); an unterminated literal emits an error token and halts; an
unknown character is a lexical error that aborts the lex; multi-character
compound-assignment operators are recognized greedily before the
single-character fallback. -/
def slex : Nat → List Char → Except LexFailure (List STok)
  | 0, _ => .error .outOfFuel
  | Nat.succ fuel, cs =>
    match cs with
    | [] => .ok [.eofS]
    | c :: cs' =>
      if isDigitRune c then
        let p := scanNumber (c :: cs')
        (slex fuel p.2).map (p.1 :: ·)
      else if c = '\'' then
        match sqScan cs' with
        | none => .ok [.errS cs']
        | some (body, r) => (slex fuel r).map (.strS body :: ·)
      else if c = ':' then
        let p := takeSym cs'
        (slex fuel p.2).map (.sym p.1 :: ·)
      else if c = ' ' || c = '\t' then
        let p := takeWs cs'
        (slex fuel p.2).map (.ws :: ·)
      else if c = '\n' then
        let p := takeNl cs'
        (slex fuel p.2).map (.nl :: ·)
      else if isLetterRune c then
        let p := takeRef (c :: cs')
        (slex fuel p.2).map (identTok p.1 :: ·)
      else if c = '@' then (slex fuel cs').map (.atsign :: ·)
      else if c = '[' then (slex fuel cs').map (.lbracket :: ·)
      else if c = ']' then (slex fuel cs').map (.rbracket :: ·)
      else if c = '=' then (slex fuel cs').map (.equal :: ·)
      else if c = '+' || c = '-' || c = '*' || c = '/' then
        match cs' with
        | '=' :: r => (slex fuel r).map (.opEq c :: ·)
        | _ => (slex fuel cs').map (.op c :: ·)
      else .error (.unknownRune c)

end SpecLex

namespace SG

open SpecLex

/-- Grammar-level failures: a syntax error aborts the whole parse and no
partial AST is produced (the `Except.error` carries no node list). -/
inductive ParseErr where
  | lowercaseClassName (v : List Char)
  | unexpectedToken
  | badLiteral
  | outOfFuel
  deriving DecidableEq

/-- Intra-line whitespace tokens are insignificant to the grammar except for
the space-separated bracket disambiguation; this drops leading ones. -/
def skipWs : List STok → List STok
  | .ws :: r => skipWs r
  | r => r

/-- Drop leading whitespace and newline tokens (between statements). -/
def skipWsNl : List STok → List STok
  | .ws :: r => skipWsNl r
  | .nl :: r => skipWsNl r
  | r => r

/-- Literal text of a compound-assignment operator token, e.g. `+=`. -/
def opEqText (c : Char) : String := ⟨[c, '=']⟩

/-- Modelled from the spec: `elsif` chains flatten into nested `Else` lists
and an explicit `else` body becomes a final alternative guarded by the
unconditionally-true boolean. -/
def mkIfChain (cond : Grubby.Node) (body : List Grubby.Node)
    (elsifs : List (Grubby.Node × List Grubby.Node))
    (elseBody : Option (List Grubby.Node)) : Grubby.Node :=
  .ifBlock cond body
    (elsifs.map (fun p => Grubby.Node.ifBlock p.1 p.2 []) ++
      (match elseBody with
       | some b => [Grubby.Node.ifBlock (.boolean true) b []]
       | none => []))

mutual

/-- Modelled from the spec: primary expressions of the grammar — literals,
keyword literals, instance variables (`@` followed by a bare reference),
and bare/capitalized references. -/
def parsePrimary : Nat → List STok → Except ParseErr (Grubby.Node × List STok)
  | 0, _ => .error .outOfFuel
  | Nat.succ _fuel, ts =>
    match ts with
    | .int v :: r =>
      match Grubby.BL.atoi v with
      | some i => .ok (.constantInt i, r)
      | none => .error .badLiteral
    | .flt v :: r =>
      match Grubby.BL.parseFloatDec v with
      | some q => .ok (.constantFloat q, r)
      | none => .error .badLiteral
    | .strS v :: r => .ok (.simpleString ⟨v⟩, r)
    | .sym v :: r => .ok (.symbol ⟨v⟩, r)
    | .kTrue :: r => .ok (.boolean true, r)
    | .kFalse :: r => .ok (.boolean false, r)
    | .kNil :: r => .ok (.nilNode, r)
    | .atsign :: .ref v :: r => .ok (.instanceVariable ⟨v⟩, r)
    | .ref v :: r => .ok (.bareReference ⟨v⟩, r)
    | .capref v :: r => .ok (.bareReference ⟨v⟩, r)
    | _ => .error .unexpectedToken

/-- Modelled from the spec: the index-access rule. After `[` the subscript
expression is parsed, the closing `]` is required, and a following `=`
turns the whole form into an index-assignment call (method `[]=`) with the
assigned value as the extra argument; otherwise it is an index-access call
(method `[]`). -/
def parseIndex (fuel : Nat) (recv : Grubby.Node) (ts : List STok) :
    Except ParseErr (Grubby.Node × List STok) :=
  match fuel with
  | 0 => .error .outOfFuel
  | Nat.succ fuel =>
    match parseExpr fuel (skipWs ts) with
    | .error e => .error e
    | .ok (k, r1) =>
      match skipWs r1 with
      | .rbracket :: r2 =>
        match skipWs r2 with
        | .equal :: r3 =>
          match parseExpr fuel (skipWs r3) with
          | .error e => .error e
          | .ok (v, r4) =>
            .ok (.callExpression (some recv) (.bareReference "[]=") [k, v], r4)
        | _ => .ok (.callExpression (some recv) (.bareReference "[]") [k], r2)
      | _ => .error .unexpectedToken

/-- Modelled from the spec: postfix and infix forms on a parsed primary.
A bracket directly after any receiver, or a space-separated bracket after an
instance-variable receiver, is **always** index access/index-assignment on
that receiver; a space-separated bracket after any other receiver is a call
taking a separate array-literal argument; a compound-assignment operator
token becomes a call whose method name is the literal operator text with the
right side as sole argument. -/
def parsePostfix (fuel : Nat) (p : Grubby.Node) (ts : List STok) :
    Except ParseErr (Grubby.Node × List STok) :=
  match fuel with
  | 0 => .error .outOfFuel
  | Nat.succ fuel =>
    match ts with
    | .lbracket :: r2 => parseIndex fuel p r2
    | .ws :: .lbracket :: r2 =>
      match p with
      | .instanceVariable nm => parseIndex fuel (.instanceVariable nm) r2
      | _ =>
        match parseExpr fuel (skipWs r2) with
        | .error e => .error e
        | .ok (k, r3) =>
          match skipWs r3 with
          | .rbracket :: r4 => .ok (.callExpression none p [.array [k]], r4)
          | _ => .error .unexpectedToken
    | .opEq c :: r2 =>
      match parseExpr fuel (skipWs r2) with
      | .error e => .error e
      | .ok (v, r3) =>
        .ok (.callExpression (some p) (.bareReference (opEqText c)) [v], r3)
    | .ws :: .opEq c :: r2 =>
      match parseExpr fuel (skipWs r2) with
      | .error e => .error e
      | .ok (v, r3) =>
        .ok (.callExpression (some p) (.bareReference (opEqText c)) [v], r3)
    | _ => .ok (p, ts)

/-- Modelled from the spec: one expression — a primary with its postfix
forms. -/
def parseExpr (fuel : Nat) (ts : List STok) :
    Except ParseErr (Grubby.Node × List STok) :=
  match fuel with
  | 0 => .error .outOfFuel
  | Nat.succ fuel =>
    match parsePrimary fuel (skipWs ts) with
    | .error e => .error e
    | .ok (p, r) => parsePostfix fuel p r

end

/-- A token that terminates a statement sequence: `elsif`, `else`, `end`,
or the end of input. -/
def isStopTok (t : STok) : Bool :=
  match t with
  | .kElsif => true
  | .kElse => true
  | .kEnd => true
  | .eofS => true
  | _ => false

mutual

/-- Modelled from the spec: one statement — a class declaration (whose name
must be a capitalized reference: a lowercase class name is a syntax error
that aborts the parse), an if/elsif/else block, or an expression
statement. -/
def parseStmt : Nat → List STok → Except ParseErr (Grubby.Node × List STok)
  | 0, _ => .error .outOfFuel
  | Nat.succ fuel, ts =>
    match skipWs ts with
    | .kClass :: r =>
      match skipWs r with
      | .capref nm :: r2 =>
        match parseSeq fuel r2 with
        | .error e => .error e
        | .ok (body, r3) =>
          match r3 with
          | .kEnd :: r4 => .ok (.classDecl ⟨nm⟩ none body, r4)
          | _ => .error .unexpectedToken
      | .ref nm :: _ => .error (.lowercaseClassName nm)
      | _ => .error .unexpectedToken
    | .kIf :: r =>
      match parseExpr fuel (skipWs r) with
      | .error e => .error e
      | .ok (cond, r1) =>
        match parseSeq fuel r1 with
        | .error e => .error e
        | .ok (body, r2) =>
          match parseElsifs fuel r2 with
          | .error e => .error e
          | .ok (elsifs, elseBody, r3) =>
            .ok (mkIfChain cond body elsifs elseBody, r3)
    | other => parseExpr fuel other

/-- Modelled from the spec: a newline-separated statement sequence, ending
(without consuming it) at `elsif`/`else`/`end`/end-of-input. -/
def parseSeq : Nat → List STok → Except ParseErr (List Grubby.Node × List STok)
  | 0, _ => .error .outOfFuel
  | Nat.succ fuel, ts =>
    match skipWsNl ts with
    | [] => .ok ([], [])
    | t :: r =>
      if isStopTok t then .ok ([], t :: r)
      else
        match parseStmt fuel (t :: r) with
        | .error e => .error e
        | .ok (n, r1) =>
          match parseSeq fuel r1 with
          | .error e => .error e
          | .ok (ns, r2) => .ok (n :: ns, r2)

/-- Modelled from the spec: the `elsif`/`else` tail of an if block, up to and
including the closing `end`. Returns the `elsif` arms in source order and
the optional `else` body. -/
def parseElsifs : Nat → List STok →
    Except ParseErr (List (Grubby.Node × List Grubby.Node) ×
      Option (List Grubby.Node) × List STok)
  | 0, _ => .error .outOfFuel
  | Nat.succ fuel, ts =>
    match ts with
    | .kEnd :: r => .ok ([], none, r)
    | .kElse :: r =>
      match parseSeq fuel r with
      | .error e => .error e
      | .ok (body, r1) =>
        match r1 with
        | .kEnd :: r2 => .ok ([], some body, r2)
        | _ => .error .unexpectedToken
    | .kElsif :: r =>
      match parseExpr fuel (skipWs r) with
      | .error e => .error e
      | .ok (cond, r1) =>
        match parseSeq fuel r1 with
        | .error e => .error e
        | .ok (body, r2) =>
          match parseElsifs fuel r2 with
          | .error e => .error e
          | .ok (elsifs, elseBody, r3) =>
            .ok ((cond, body) :: elsifs, elseBody, r3)
    | _ => .error .unexpectedToken

end

/-- Modelled from the spec: the whole program — an ordered list of top-level
statements consumed up to the end-of-input token. There is no wrapping root
node, and an error produces no partial list. -/
def parseProgram : Nat → List STok → Except ParseErr (List Grubby.Node)
  | 0, _ => .error .outOfFuel
  | Nat.succ fuel, ts =>
    match skipWsNl ts with
    | [] => .ok []
    | .eofS :: _ => .ok []
    | other =>
      match parseStmt fuel other with
      | .error e => .error e
      | .ok (n, r) =>
        match parseProgram fuel r with
        | .error e => .error e
        | .ok ns => .ok (n :: ns)

end SG

/-- A failed parse attempt: either the lexical analyzer or the grammar
aborted. Both abort the whole parse; the error constructor carries no node
list, so no partial AST can be surfaced. -/
inductive RubyFailure where
  | lexFailure (f : BL.LexFailure)
  | grammarFailure (e : SG.ParseErr)
  deriving DecidableEq

/-- Modelled from the spec: the parse entry point exercised by the test
corpus (`parser.NewLexer` + `parser.RubyParse` + reading back the parsed
statements; not under `src/`): lex the source, then run the grammar over
the token stream. The result is either the ordered list of top-level AST
nodes or a failure with no nodes at all. -/
def rubyParse (fuel : Nat) (input : List Char) :
    Except RubyFailure (List Grubby.Node) :=
  match SpecLex.slex fuel input with
  | .error f => .error (.lexFailure f)
  | .ok ts =>
    match SG.parseProgram fuel ts with
    | .error e => .error (.grammarFailure e)
    | .ok ns => .ok ns

/-! ## Heredoc termination (spec-modelled) -/

/-- Modelled from the spec: the terminator scan for a non-dashed heredoc
(`<<ID`; the heredoc recognizer is not under `src/`). Scanning the lines
after the heredoc-opening line, the literal's content is every line before
the first line that is an exact, unindented match of the identifier at
column 0; a line that merely contains the identifier (e.g. indented) is
ordinary content. `none` means the heredoc is unterminated. -/
def heredocScan (id : List Char) : List (List Char) → Option (List (List Char))
  | [] => none
  | l :: ls => if l = id then some [] else (heredocScan id ls).map (l :: ·)

/-! ## Embedding of the `File` builtin (`src/unnamed/part_000`) -/

namespace Builtins

/-- A runtime value as far as `expand_path` observes it: a `StringValue` or
some other value (on which the `.(*StringValue)` type assertion panics). -/
inductive RValue where
  | str (s : String)
  | other
  deriving DecidableEq

/-- The runtime panics `expand_path` can hit: indexing an empty `args`
slice, indexing byte 0 of an empty string, or a failed type assertion. -/
inductive RubyError where
  | argsIndexOutOfRange
  | stringIndexOutOfRange
  | typeAssertionFailed
  deriving DecidableEq

/-- Simple model of `filepath.Join` on two components. -/
def joinPath (dir p : String) : String := dir ++ "/" ++ p

/-- Simple model of `filepath.Abs`: absolute paths are kept, relative ones
are resolved against the working directory. -/
def absPath (cwd p : String) : String :=
  match p.data with
  | '/' :: _ => p
  | _ => cwd ++ "/" ++ p

/-- Embedding of the `expand_path` method body from the `File` builtin:
`arg1 := args[0].(*StringValue).String()`, then the unconditional
`arg1[0] == '~'` first-byte test (out of bounds on the empty string —
modelled as `Except.error .stringIndexOutOfRange`), with `HOME` substituted
for a leading `~`; with a second string argument the result is the join,
otherwise the absolute form. `home` and `cwd` stand for `os.Getenv("HOME")`
and the process working directory. -/
def expandPath (home cwd : String) (args : List RValue) :
    Except RubyError String :=
  match args with
  | [] => .error .argsIndexOutOfRange
  | .other :: _ => .error .typeAssertionFailed
  | .str s :: rest =>
    match s.data with
    | [] => .error .stringIndexOutOfRange
    | c :: cs0 =>
      let arg1 := if c = '~' then home ++ (⟨cs0⟩ : String) else s
      match rest with
      | [a2] =>
        match a2 with
        | .str dir => .ok (joinPath dir arg1)
        | .other => .error .typeAssertionFailed
      | _ => .ok (absPath cwd arg1)

end Builtins

namespace SpecLex

/-- The first character is a decimal digit. -/
def headDigit : List Char → Bool
  | [] => false
  | c :: _ => Grubby.BL.isDigitRune c

/-- The input starts with a decimal point followed by a digit (the
promotion condition of the numeric scan). -/
def headDotDigit : List Char → Bool
  | '.' :: c :: _ => Grubby.BL.isDigitRune c
  | _ => false

end SpecLex

namespace BL

/-- A well-formed single-quoted literal body: it contains no unescaped
quote (and no trailing lone backslash, which would escape the closing
delimiter), so it extends exactly to the closing quote; backslash-quote
pairs are part of the body. -/
def sqBodyOk : List Char → Bool
  | [] => true
  | '\\' :: '\'' :: t => sqBodyOk t
  | '\'' :: _ => false
  | ['\\'] => false
  | _ :: t => sqBodyOk t

end BL

/-- The if/elsif/elsif/else chain of the test corpus (three conditional
branches and a final else, with one-statement string-literal bodies). -/
def sampleElsifChain : List Char :=
  "if false\n".toList ++ '\'' :: "pc".toList ++ '\'' ::
  ("\nelsif false\n".toList ++ '\'' :: "bh".toList ++ '\'' ::
  ("\nelsif false\n".toList ++ '\'' :: "sn".toList ++ '\'' ::
  ("\nelse\n".toList ++ '\'' :: "oh".toList ++ '\'' ::
  "\nend\n".toList)))

end Grubby

/-! ## Theorems -/

open Grubby

/-- `takeDigits` consumes exactly an all-digit block when the remainder does
not start with a digit. -/
theorem takeDigits_all_append (ds r : List Char)
    (h1 : ds.all BL.isDigitRune = true) (h2 : SpecLex.headDigit r = false) :
    BL.takeDigits (ds ++ r) = (ds, r) := by
  induction ds with
  | nil =>
    cases r with
    | nil => rfl
    | cons c cs =>
      simp only [SpecLex.headDigit] at h2
      simp [BL.takeDigits, h2]
  | cons c cs ih =>
    simp only [List.all_cons, Bool.and_eq_true] at h1
    simp [BL.takeDigits, h1.1, ih h1.2]

/-- A heredoc body scan stops exactly at the first column-0 occurrence of
the terminator identifier. -/
theorem heredocScan_exact (id : List Char) (content rest : List (List Char))
    (h : ∀ l ∈ content, l ≠ id) :
    heredocScan id (content ++ id :: rest) = some content := by
  induction content with
  | nil => simp [heredocScan]
  | cons l ls ih =>
    have hne : l ≠ id := h l (by simp)
    simp only [List.cons_append, heredocScan, if_neg hne]
    rw [List.append_eq, ih (fun x hx => h x (by simp [hx]))]
    rfl

/-- C1: for an input whose first grammar violation is a class declaration
with a lowercase class name, the parse fails and no top-level AST nodes are
produced: concretely, parsing `class foo\nend` aborts with the
lowercase-class-name syntax error (the failure carries no node list), and in
general the statement grammar rejects `class` followed by any bare
(lowercase) reference name outright, whatever follows. -/
theorem c1_lowercase_class_name_fails :
    rubyParse 30 "class foo\nend".toList =
      .error (.grammarFailure (.lowercaseClassName "foo".toList)) ∧
    ∀ (fuel : Nat) (nm : List Char) (ts : List SpecLex.STok),
      SG.parseStmt (fuel + 1) (.kClass :: .ws :: .ref nm :: ts) =
        .error (.lowercaseClassName nm) :=
  ⟨rfl, fun _ _ _ => rfl⟩

/-- C3: parsing `a += 5` yields exactly one top-level node: a call
expression whose method name is the literal operator text `+=`, whose
receiver is the bare reference `a`, and whose sole argument is the integer
literal 5 — not a read-modify-write triple. -/
theorem c3_compound_assignment_is_call :
    rubyParse 30 "a += 5".toList =
      .ok [.callExpression (some (.bareReference "a")) (.bareReference "+=")
        [.constantInt 5]] := rfl

/-- C6: an if/elsif chain with three branches and a final else parses to a
single top-level if node whose `Else` list is exactly two nested if nodes
(one per `elsif`, keeping its own condition) followed by a final alternative
guarded by the unconditionally-true boolean; and in general flattening a
chain with two `elsif` arms and an explicit else produces exactly that
`Else` list shape. -/
theorem c6_elsif_chain_shape :
    rubyParse 60 sampleElsifChain =
      .ok [.ifBlock (.boolean false) [.simpleString "pc"]
        [.ifBlock (.boolean false) [.simpleString "bh"] [],
         .ifBlock (.boolean false) [.simpleString "sn"] [],
         .ifBlock (.boolean true) [.simpleString "oh"] []]] ∧
    ∀ (c : Node) (b : List Node) (c2 : Node) (b2 : List Node) (c3 : Node)
      (b3 : List Node) (be : List Node),
      SG.mkIfChain c b [(c2, b2), (c3, b3)] (some be) =
        .ifBlock c b [.ifBlock c2 b2 [], .ifBlock c3 b3 [],
          .ifBlock (.boolean true) be []] :=
  ⟨rfl, fun _ _ _ _ _ _ _ => rfl⟩

/-- C7: a non-dashed heredoc does not terminate at a line on which the
terminator identifier appears indented; the literal's content keeps every
line up to (and the scan ends only at) the first exact, unindented
column-0 match of the identifier. -/
theorem c7_heredoc_column0_termination
    (id indent : List Char) (pre post rest : List (List Char))
    (hindent : indent ≠ [])
    (hpre : ∀ l ∈ pre, l ≠ id) (hpost : ∀ l ∈ post, l ≠ id) :
    heredocScan id ((pre ++ (indent ++ id) :: post) ++ id :: rest) =
      some (pre ++ (indent ++ id) :: post) := by
  apply heredocScan_exact
  intro l hl
  rcases List.mem_append.1 hl with hl | hl
  · exact hpre l hl
  · rcases List.mem_cons.1 hl with rfl | hl
    · intro he
      have := congrArg List.length he
      simp [List.length_append] at this
      exact hindent this
    · exact hpost l hl

/-- Witness for C7 at the test corpus's heredoc: the indented `  FOO` line
is kept as content and the literal ends at the column-0 `FOO` line. -/
theorem c7_heredoc_column0_termination_witness :
    heredocScan "FOO".toList
      (("resenter-postvenous".toList :: ("  FOO".toList) :: []) ++
        "FOO".toList :: []) =
      some ("resenter-postvenous".toList :: ("  FOO".toList) :: []) := by
  have h := c7_heredoc_column0_termination "FOO".toList "  ".toList
    ["resenter-postvenous".toList] [] [] (by decide) (by decide) (by decide)
  simpa using h

/-- C10: `File.expand_path` reads byte 0 of its first string argument
unconditionally, so the call panics with an out-of-bounds index on the
empty string, while every non-empty first argument is read in bounds and
(alone) produces a result. -/
theorem c10_expand_path_first_byte :
    (∀ home cwd : String,
      Builtins.expandPath home cwd [.str ""] =
        .error .stringIndexOutOfRange) ∧
    (∀ home cwd s, s ≠ "" →
      ∃ v, Builtins.expandPath home cwd [.str s] = .ok v) := by
  refine ⟨fun _ _ => rfl, fun home cwd s hs => ?_⟩
  cases s with
  | mk l =>
    cases l with
    | nil => exact absurd rfl hs
    | cons c t => exact ⟨_, rfl⟩

/-- Witness for C10: the empty first argument is out of bounds and the
one-character argument `a` succeeds. -/
theorem c10_expand_path_first_byte_witness :
    (∃ v, Builtins.expandPath "home" "cwd" [.str "a"] = .ok v) ∧
    Builtins.expandPath "home" "cwd" [.str ""] =
      .error .stringIndexOutOfRange :=
  ⟨c10_expand_path_first_byte.2 "home" "cwd" "a" (by decide),
   c10_expand_path_first_byte.1 "home" "cwd"⟩

/-- C2 counterexample: on the input `^` — a character no lexical rule
recognizes — the better lexer does not abort with an error value: it
panics (the `Except.error` models the Go `panic` in `lexAnything`), so the
parse crashes rather than yielding an empty result plus an error value. -/
theorem c2_lexical_error_counterexample :
    BL.betterLex 5 ['^'] = .error (.unknownRune '^') := rfl

/-- C9 counterexample: on the input `%` the lexer panics before emitting
anything, so its token stream contains no end-of-input marker and no
terminal error token at all — the claim's "exactly one end marker on every
input" fails on inputs that hit the unknown-rune panic. -/
theorem c9_stream_counterexample :
    BL.betterLex 5 ['%'] = .error (.unknownRune '%') := rfl

/-- C4: parsing `5` yields exactly one integer-literal node with value 5 and
parsing `123.4567` yields exactly one float-literal node with value
123.4567; in general the numeric scan promotes a digit run followed by a
decimal point and further digits to a float token and otherwise produces an
integer token. -/
theorem c4_numeric_literals :
    rubyParse 30 "5".toList = .ok [.constantInt 5] ∧
    rubyParse 30 "123.4567".toList =
      .ok [.constantFloat (mkRat 1234567 10000)] ∧
    (∀ (d1 d2 r : List Char), d1.all BL.isDigitRune = true →
      d2 ≠ [] → d2.all BL.isDigitRune = true → SpecLex.headDigit r = false →
      SpecLex.scanNumber (d1 ++ '.' :: (d2 ++ r)) =
        (.flt (d1 ++ '.' :: d2), r)) ∧
    (∀ (ds r : List Char), ds.all BL.isDigitRune = true →
      SpecLex.headDigit r = false → SpecLex.headDotDigit r = false →
      SpecLex.scanNumber (ds ++ r) = (.int ds, r)) := by
  refine ⟨rfl, rfl, ?_, ?_⟩
  · intro d1 d2 r h1 h2 h3 h4
    obtain ⟨e, d2', rfl⟩ : ∃ e d2', d2 = e :: d2' := by
      cases d2 with
      | nil => exact absurd rfl h2
      | cons e t => exact ⟨e, t, rfl⟩
    simp only [List.all_cons, Bool.and_eq_true] at h3
    have ht1 : BL.takeDigits (d1 ++ '.' :: ((e :: d2') ++ r)) =
        (d1, '.' :: ((e :: d2') ++ r)) :=
      takeDigits_all_append d1 _ h1 (by simp [SpecLex.headDigit, BL.isDigitRune])
    have ht2 : BL.takeDigits ((e :: d2') ++ r) = (e :: d2', r) :=
      takeDigits_all_append (e :: d2') r
        (by simp [List.all_cons, h3.1, h3.2]) h4
    simp only [List.cons_append] at ht1 ht2
    simp [SpecLex.scanNumber, ht1, ht2, h3.1]
  · intro ds r h1 h2 h3
    have ht : BL.takeDigits (ds ++ r) = (ds, r) :=
      takeDigits_all_append ds r h1 h2
    cases r with
    | nil =>
      simp only [List.append_nil] at ht
      simp [SpecLex.scanNumber, ht]
    | cons c cs =>
      by_cases hc : c = '.'
      · subst hc
        cases cs with
        | nil => simp [SpecLex.scanNumber, ht]
        | cons d cs' =>
          simp only [SpecLex.headDotDigit] at h3
          simp [SpecLex.scanNumber, ht, h3]
      · simp only [SpecLex.scanNumber, ht]
        split <;> simp_all

/-- Witness for C4's scan-promotion conjuncts at concrete digit strings:
`12.3x` scans to a float token and `7x` to an integer token. -/
theorem c4_numeric_literals_witness :
    SpecLex.scanNumber ("12".toList ++ '.' :: ("3".toList ++ ['x'])) =
      (.flt ("12".toList ++ '.' :: "3".toList), ['x']) ∧
    SpecLex.scanNumber ("7".toList ++ ['x']) = (.int "7".toList, ['x']) :=
  ⟨c4_numeric_literals.2.2.1 "12".toList "3".toList ['x'] (by decide)
      (by decide) (by decide) (by decide),
   c4_numeric_literals.2.2.2 "7".toList ['x'] (by decide) (by decide)
      (by decide)⟩

/-- C5: a space-separated bracket after an instance-variable receiver is
always index access (`[]`) or index assignment (`[]=`) on that receiver:
concretely for `@x [k] = v` and `@x [k]`, and in general every successful
parse of `@`-receiver followed by whitespace and `[` produces one of those
two call shapes — never a call with a separate array-literal argument. -/
theorem c5_atsign_bracket_is_index :
    rubyParse 30 "@x [k] = v".toList =
      .ok [.callExpression (some (.instanceVariable "x"))
        (.bareReference "[]=") [.bareReference "k", .bareReference "v"]] ∧
    rubyParse 30 "@x [k]".toList =
      .ok [.callExpression (some (.instanceVariable "x"))
        (.bareReference "[]") [.bareReference "k"]] ∧
    ∀ (fuel : Nat) (nm : String) (ts : List SpecLex.STok) (n : Node)
      (rest : List SpecLex.STok),
      SG.parsePostfix fuel (.instanceVariable nm) (.ws :: .lbracket :: ts) =
        .ok (n, rest) →
      (∃ k, n = .callExpression (some (.instanceVariable nm))
          (.bareReference "[]") [k]) ∨
      (∃ k v, n = .callExpression (some (.instanceVariable nm))
          (.bareReference "[]=") [k, v]) := by
  refine ⟨rfl, rfl, ?_⟩
  intro fuel nm ts n rest h
  cases fuel with
  | zero => simp [SG.parsePostfix] at h
  | succ f =>
    simp only [SG.parsePostfix] at h
    cases f with
    | zero => simp [SG.parseIndex] at h
    | succ f2 =>
      simp only [SG.parseIndex] at h
      split at h
      · simp at h
      · split at h
        · split at h
          · split at h
            · simp at h
            · simp only [Except.ok.injEq, Prod.mk.injEq] at h
              exact Or.inr ⟨_, _, h.1.symm⟩
          · simp only [Except.ok.injEq, Prod.mk.injEq] at h
            exact Or.inl ⟨_, h.1.symm⟩
        · simp at h

/-- C8: a single-quoted string literal keeps any backslash-quote escape
sequence verbatim: the scan of a well-formed body returns the body exactly
as written (backslash-quote pairs included, recognized only for
delimiting), and the full pipeline on a literal containing a
backslash-quote yields a string node whose value still contains the
backslash-quote sequence. -/
theorem c8_single_quote_escape_verbatim :
    (∀ (body : List Char), BL.sqBodyOk body = true →
      ∀ rest, BL.sqScan (body ++ '\'' :: rest) = some (body, rest)) ∧
    rubyParse 30
      ('\'' :: ("hello ".toList ++ '\\' :: '\'' :: " world".toList) ++
        ['\'']) =
      .ok [.simpleString
        (String.mk ("hello ".toList ++ '\\' :: '\'' :: " world".toList))] := by
  refine ⟨?_, rfl⟩
  intro body h
  induction body using BL.sqBodyOk.induct with
  | case1 => intro rest; simp [BL.sqScan]
  | case2 t ih =>
    intro rest
    simp only [BL.sqBodyOk] at h
    simp [BL.sqScan, ih h]
  | case3 t => simp [BL.sqBodyOk] at h
  | case4 => simp [BL.sqBodyOk] at h
  | case5 c t h1 h2 h3 ih =>
    intro rest
    have hv : ∀ t1, c = '\\' → (t ++ '\'' :: rest) = '\'' :: t1 → False := by
      intro t1 hc he
      cases t with
      | nil => exact h3 hc rfl
      | cons x t' =>
        simp only [List.cons_append, List.cons.injEq] at he
        exact h1 t' hc (by rw [he.1])
    rw [List.cons_append, BL.sqScan.eq_4 c _ hv h2]
    rw [BL.sqBodyOk.eq_5 c t h1 h2 h3] at h
    rw [ih h rest]
    rfl

/-- Witness for C8 at the test corpus's literal body `hello \' world`: the
scan keeps the backslash-quote pair and stops at the closing quote. -/
theorem c8_single_quote_escape_verbatim_witness :
    BL.sqScan (("hello ".toList ++ '\\' :: '\'' :: " world".toList) ++
        '\'' :: []) =
      some ("hello ".toList ++ '\\' :: '\'' :: " world".toList, []) :=
  c8_single_quote_escape_verbatim.1
    ("hello ".toList ++ '\\' :: '\'' :: " world".toList) (by decide) []

/-- C2 (amended): a character not recognized by any dispatch rule does not
produce an abort-with-error-value: the lexer run panics (Go `panic`,
modelled `Except.error`) the moment the dispatch state reaches it, whatever
came before or after; and the token consumer `Lex` likewise panics when it
receives an error token instead of returning an error value. -/
theorem c2_unknown_character_panics :
    (∀ (fuel : Nat) (pending : List Char) (c : Char) (cs : List Char),
      BL.recognizedRune c = false →
      BL.brun (fuel + 1) .anything ⟨pending, c :: cs⟩ =
        .error (.unknownRune c)) ∧
    (∀ v, BL.lexToken ⟨.err, v⟩ = .error (.errorToken v)) := by
  refine ⟨?_, fun _ => rfl⟩
  intro fuel pending c cs h
  simp only [BL.recognizedRune, Bool.or_eq_false_iff,
    decide_eq_false_iff_not] at h
  simp [BL.brun, h]

/-- Witness for C2's amended behavior at the unrecognized character `&`:
the dispatch panics immediately. -/
theorem c2_unknown_character_panics_witness :
    BL.brun 1 .anything ⟨[], ['&']⟩ = .error (.unknownRune '&') :=
  c2_unknown_character_panics.1 0 [] '&' [] (by decide)

/-- Prepending a non-terminal token preserves correct stream termination. -/
theorem wellTerminated_cons {t : BL.Tok} {ts : List BL.Tok}
    (h1 : ¬ BL.isTerm t) (h2 : BL.wellTerminated ts) :
    BL.wellTerminated (t :: ts) := by
  obtain ⟨f, tail, rfl, hf, ht⟩ := h2
  refine ⟨t :: f, tail, rfl, ?_, ht⟩
  intro u hu
  rcases List.mem_cons.1 hu with rfl | hu
  · exact h1
  · exact hf u hu

/-- A successful `emitThen` is a successful continuation with the emitted
token in front. -/
theorem emitThen_ok {t : BL.Tok} {k : Except BL.LexFailure (List BL.Tok)}
    {toks : List BL.Tok} (h : BL.emitThen t k = .ok toks) :
    ∃ ts, k = .ok ts ∧ toks = t :: ts := by
  cases k with
  | error e => simp [BL.emitThen, Except.map] at h
  | ok ts =>
    refine ⟨ts, rfl, ?_⟩
    simpa [BL.emitThen, Except.map] using h.symm

/-- The reference recognizer never produces a terminal token kind. -/
theorem refType_not_term (v : List Char) :
    BL.refType v ≠ .eofT ∧ BL.refType v ≠ .err := by
  unfold BL.refType
  repeat' split
  all_goals exact ⟨(fun h => nomatch h), (fun h => nomatch h)⟩

/-- A stream consisting of the lone EOF marker terminates correctly. -/
theorem wellTerminated_eof : BL.wellTerminated [⟨.eofT, []⟩] :=
  ⟨[], [⟨.eofT, []⟩], rfl, by simp, Or.inl rfl⟩

/-- A stream consisting of one terminal error token terminates correctly. -/
theorem wellTerminated_err (v : List Char) :
    BL.wellTerminated [⟨.err, v⟩] :=
  ⟨[], [⟨.err, v⟩], rfl, by simp, Or.inr (Or.inl ⟨v, rfl⟩)⟩

/-- A stream ending in an error token immediately followed by the EOF
marker terminates correctly. -/
theorem wellTerminated_err_eof (v : List Char) :
    BL.wellTerminated [⟨.err, v⟩, ⟨.eofT, []⟩] :=
  ⟨[], [⟨.err, v⟩, ⟨.eofT, []⟩], rfl, by simp, Or.inr (Or.inr ⟨v, rfl⟩)⟩

/-- The tokens emitted after the dispatch loop breaks terminate
correctly. -/
theorem wellTerminated_finishTail (cs : List Char) :
    BL.wellTerminated (BL.finishTail cs) := by
  unfold BL.finishTail
  split
  · exact wellTerminated_eof
  · exact wellTerminated_err_eof []

/-- Unfolding of the lexer run in the number state. -/
theorem brun_succ_number (n : Nat) (core : BL.Core) :
    BL.brun (n + 1) .number core =
      (match (BL.takeDigits core.rest).2 with
       | '.' :: r2 =>
         if (match r2 with | d :: _ => BL.isDigitRune d | [] => false) then
           BL.emitThen
             ⟨.float, core.pending ++ (BL.takeDigits core.rest).1 ++
               '.' :: (BL.takeDigits r2).1⟩
             (BL.brun n .anything ⟨[], (BL.takeDigits r2).2⟩)
         else
           BL.emitThen ⟨.integer, core.pending ++ (BL.takeDigits core.rest).1⟩
             (BL.brun n .anything ⟨[], '.' :: r2⟩)
       | _ =>
         BL.emitThen ⟨.integer, core.pending ++ (BL.takeDigits core.rest).1⟩
           (BL.brun n .anything ⟨[], (BL.takeDigits core.rest).2⟩)) := rfl

/-- Unfolding of the lexer run in the single-quote state. -/
theorem brun_succ_singleQuote (n : Nat) (core : BL.Core) :
    BL.brun (n + 1) .singleQuote core =
      (match BL.sqScan core.rest with
       | none => .ok [⟨.err, core.pending ++ core.rest⟩]
       | some (body, r) =>
         BL.emitThen ⟨.strT, body⟩ (BL.brun n .anything ⟨[], r⟩)) := rfl

/-- Unfolding of the lexer run in the symbol state. -/
theorem brun_succ_symbolS (n : Nat) (core : BL.Core) :
    BL.brun (n + 1) .symbolS core =
      BL.emitThen ⟨.symbolT, core.pending ++ (BL.takeSym core.rest).1⟩
        (BL.brun n .anything ⟨[], (BL.takeSym core.rest).2⟩) := rfl

/-- Unfolding of the lexer run in the whitespace state. -/
theorem brun_succ_whitespaceS (n : Nat) (core : BL.Core) :
    BL.brun (n + 1) .whitespaceS core =
      BL.emitThen ⟨.whitespace, core.pending ++ (BL.takeWs core.rest).1⟩
        (BL.brun n .anything ⟨[], (BL.takeWs core.rest).2⟩) := rfl

/-- Unfolding of the lexer run in the newline state. -/
theorem brun_succ_newlinesS (n : Nat) (core : BL.Core) :
    BL.brun (n + 1) .newlinesS core =
      BL.emitThen ⟨.newline, core.pending ++ (BL.takeNl core.rest).1⟩
        (BL.brun n .anything ⟨[], (BL.takeNl core.rest).2⟩) := rfl

/-- Unfolding of the lexer run in the reference state. -/
theorem brun_succ_referenceS (n : Nat) (core : BL.Core) :
    BL.brun (n + 1) .referenceS core =
      BL.emitThen
        ⟨BL.refType (core.pending ++ (BL.takeRef core.rest).1),
          core.pending ++ (BL.takeRef core.rest).1⟩
        (BL.brun n .anything ⟨[], (BL.takeRef core.rest).2⟩) := rfl

/-- Unfolding of the lexer run in the comment state. -/
theorem brun_succ_commentS (n : Nat) (core : BL.Core) :
    BL.brun (n + 1) .commentS core =
      BL.brun n .anything
        ⟨[], core.rest.dropWhile (fun c => !(c = '\n'))⟩ := rfl

/-- Completed run of the better lexer: whenever a run from any state
completes with a token stream (rather than panicking or running out of
fuel), the stream terminates correctly: no terminal token before the final
tail, the EOF marker unique and final when present, nothing emitted after
it. -/
theorem brun_ok_ends (fuel : Nat) :
    ∀ (st : BL.St) (core : BL.Core) (toks : List BL.Tok),
      BL.brun fuel st core = .ok toks → BL.wellTerminated toks := by
  induction fuel with
  | zero =>
    intro st core toks h
    simp [BL.brun] at h
  | succ n ih =>
    intro st core toks h
    cases st with
    | anything =>
      cases hr : core.rest with
      | nil =>
        simp only [BL.brun, hr] at h
        by_cases hp : core.pending = []
        · rw [if_pos hp] at h
          simp only [Except.ok.injEq] at h
          subst h
          exact wellTerminated_eof
        · rw [if_neg hp] at h
          simp only [Except.ok.injEq] at h
          subst h
          exact wellTerminated_err_eof core.pending
      | cons c cs =>
        simp only [BL.brun, hr] at h
        by_cases hb1 : BL.isDigitRune c = true
        · rw [if_pos hb1] at h
          exact ih _ _ _ h
        rw [if_neg hb1] at h
        by_cases hb2 : c = '\''
        · rw [if_pos hb2] at h
          exact ih _ _ _ h
        rw [if_neg hb2] at h
        by_cases hb3 : c = ':'
        · rw [if_pos hb3] at h
          exact ih _ _ _ h
        rw [if_neg hb3] at h
        by_cases hb4 : (c = ' ' || c = '\t') = true
        · rw [if_pos hb4] at h
          exact ih _ _ _ h
        rw [if_neg hb4] at h
        by_cases hb5 : c = '\n'
        · rw [if_pos hb5] at h
          exact ih _ _ _ h
        rw [if_neg hb5] at h
        by_cases hb6 : BL.isLetterRune c = true
        · rw [if_pos hb6] at h
          exact ih _ _ _ h
        rw [if_neg hb6] at h
        by_cases hb7 : c = '('
        · rw [if_pos hb7] at h
          by_cases hpk : BL.peekEof cs = true
          · rw [if_pos hpk] at h
            simp only [Except.ok.injEq] at h
            subst h
            exact wellTerminated_cons (by simp [BL.isTerm])
              (wellTerminated_finishTail cs)
          · rw [if_neg hpk] at h
            obtain ⟨ts, hk, rfl⟩ := emitThen_ok h
            exact wellTerminated_cons (by simp [BL.isTerm])
              (ih _ _ _ hk)
        rw [if_neg hb7] at h
        by_cases hb8 : c = ')'
        · rw [if_pos hb8] at h
          by_cases hpk : BL.peekEof cs = true
          · rw [if_pos hpk] at h
            simp only [Except.ok.injEq] at h
            subst h
            exact wellTerminated_cons (by simp [BL.isTerm])
              (wellTerminated_finishTail cs)
          · rw [if_neg hpk] at h
            obtain ⟨ts, hk, rfl⟩ := emitThen_ok h
            exact wellTerminated_cons (by simp [BL.isTerm])
              (ih _ _ _ hk)
        rw [if_neg hb8] at h
        by_cases hb9 : c = ','
        · rw [if_pos hb9] at h
          by_cases hpk : BL.peekEof cs = true
          · rw [if_pos hpk] at h
            simp only [Except.ok.injEq] at h
            subst h
            exact wellTerminated_cons (by simp [BL.isTerm])
              (wellTerminated_finishTail cs)
          · rw [if_neg hpk] at h
            obtain ⟨ts, hk, rfl⟩ := emitThen_ok h
            exact wellTerminated_cons (by simp [BL.isTerm])
              (ih _ _ _ hk)
        rw [if_neg hb9] at h
        by_cases hb10 : c = '#'
        · rw [if_pos hb10] at h
          exact ih _ _ _ h
        rw [if_neg hb10] at h
        by_cases hb11 : c = '<'
        · rw [if_pos hb11] at h
          obtain ⟨ts, hk, rfl⟩ := emitThen_ok h
          exact wellTerminated_cons (by simp [BL.isTerm])
            (ih _ _ _ hk)
        rw [if_neg hb11] at h
        by_cases hb12 : c = '>'
        · rw [if_pos hb12] at h
          obtain ⟨ts, hk, rfl⟩ := emitThen_ok h
          exact wellTerminated_cons (by simp [BL.isTerm])
            (ih _ _ _ hk)
        rw [if_neg hb12] at h
        by_cases hb13 : c = '='
        · rw [if_pos hb13] at h
          obtain ⟨ts, hk, rfl⟩ := emitThen_ok h
          exact wellTerminated_cons (by simp [BL.isTerm])
            (ih _ _ _ hk)
        rw [if_neg hb13] at h
        by_cases hb14 : c = '!'
        · rw [if_pos hb14] at h
          obtain ⟨ts, hk, rfl⟩ := emitThen_ok h
          exact wellTerminated_cons (by simp [BL.isTerm])
            (ih _ _ _ hk)
        rw [if_neg hb14] at h
        by_cases hb15 : c = '~'
        · rw [if_pos hb15] at h
          obtain ⟨ts, hk, rfl⟩ := emitThen_ok h
          exact wellTerminated_cons (by simp [BL.isTerm])
            (ih _ _ _ hk)
        rw [if_neg hb15] at h
        by_cases hb16 : c = '+'
        · rw [if_pos hb16] at h
          obtain ⟨ts, hk, rfl⟩ := emitThen_ok h
          exact wellTerminated_cons (by simp [BL.isTerm])
            (ih _ _ _ hk)
        rw [if_neg hb16] at h
        by_cases hb17 : c = '-'
        · rw [if_pos hb17] at h
          obtain ⟨ts, hk, rfl⟩ := emitThen_ok h
          exact wellTerminated_cons (by simp [BL.isTerm])
            (ih _ _ _ hk)
        rw [if_neg hb17] at h
        by_cases hb18 : c = '*'
        · rw [if_pos hb18] at h
          obtain ⟨ts, hk, rfl⟩ := emitThen_ok h
          exact wellTerminated_cons (by simp [BL.isTerm])
            (ih _ _ _ hk)
        rw [if_neg hb18] at h
        by_cases hb19 : c = '['
        · rw [if_pos hb19] at h
          obtain ⟨ts, hk, rfl⟩ := emitThen_ok h
          exact wellTerminated_cons (by simp [BL.isTerm])
            (ih _ _ _ hk)
        rw [if_neg hb19] at h
        by_cases hb20 : c = ']'
        · rw [if_pos hb20] at h
          obtain ⟨ts, hk, rfl⟩ := emitThen_ok h
          exact wellTerminated_cons (by simp [BL.isTerm])
            (ih _ _ _ hk)
        rw [if_neg hb20] at h
        by_cases hb21 : c = Char.ofNat 123
        · rw [if_pos hb21] at h
          obtain ⟨ts, hk, rfl⟩ := emitThen_ok h
          exact wellTerminated_cons (by simp [BL.isTerm])
            (ih _ _ _ hk)
        rw [if_neg hb21] at h
        by_cases hb22 : c = Char.ofNat 125
        · rw [if_pos hb22] at h
          obtain ⟨ts, hk, rfl⟩ := emitThen_ok h
          exact wellTerminated_cons (by simp [BL.isTerm])
            (ih _ _ _ hk)
        rw [if_neg hb22] at h
        by_cases hb23 : c = '$'
        · rw [if_pos hb23] at h
          obtain ⟨ts, hk, rfl⟩ := emitThen_ok h
          exact wellTerminated_cons (by simp [BL.isTerm])
            (ih _ _ _ hk)
        rw [if_neg hb23] at h
        by_cases hb24 : c = '@'
        · rw [if_pos hb24] at h
          obtain ⟨ts, hk, rfl⟩ := emitThen_ok h
          exact wellTerminated_cons (by simp [BL.isTerm])
            (ih _ _ _ hk)
        rw [if_neg hb24] at h
        by_cases hb25 : c = Char.ofNat 0
        · rw [if_pos hb25] at h
          by_cases hpk : BL.peekEof cs = true
          · rw [if_pos hpk] at h
            simp only [Except.ok.injEq] at h
            subst h
            exact wellTerminated_err_eof (core.pending ++ [c])
          · rw [if_neg hpk] at h
            exact ih _ _ _ h
        rw [if_neg hb25] at h
        simp at h
    | number =>
      rw [brun_succ_number] at h
      repeat' split at h
      all_goals
        obtain ⟨ts, hk, rfl⟩ := emitThen_ok h
      all_goals
        exact wellTerminated_cons (by simp [BL.isTerm]) (ih _ _ _ hk)
    | singleQuote =>
      rw [brun_succ_singleQuote] at h
      split at h
      · simp only [Except.ok.injEq] at h
        subst h
        exact wellTerminated_err _
      · obtain ⟨ts, hk, rfl⟩ := emitThen_ok h
        exact wellTerminated_cons (by simp [BL.isTerm]) (ih _ _ _ hk)
    | symbolS =>
      rw [brun_succ_symbolS] at h
      obtain ⟨ts, hk, rfl⟩ := emitThen_ok h
      exact wellTerminated_cons (by simp [BL.isTerm]) (ih _ _ _ hk)
    | whitespaceS =>
      rw [brun_succ_whitespaceS] at h
      obtain ⟨ts, hk, rfl⟩ := emitThen_ok h
      exact wellTerminated_cons (by simp [BL.isTerm]) (ih _ _ _ hk)
    | newlinesS =>
      rw [brun_succ_newlinesS] at h
      obtain ⟨ts, hk, rfl⟩ := emitThen_ok h
      exact wellTerminated_cons (by simp [BL.isTerm]) (ih _ _ _ hk)
    | referenceS =>
      rw [brun_succ_referenceS] at h
      obtain ⟨ts, hk, rfl⟩ := emitThen_ok h
      refine wellTerminated_cons ?_ (ih _ _ _ hk)
      have hrt := refType_not_term (core.pending ++ (BL.takeRef core.rest).1)
      simp [BL.isTerm, hrt.1, hrt.2]
    | commentS =>
      rw [brun_succ_commentS] at h
      exact ih _ _ _ h

/-- C9 (amended): on every input on which the better lexer's producer run
completes (does not panic), the emitted token stream terminates correctly:
it ends in a single final EOF marker, or in one terminal error token (a
halted recognizer), or in one error token immediately followed by the
final EOF marker (un-lexed text — e.g. a NUL byte, which the dispatch
treats as its rune-0 end-of-input sentinel — pending at end of input); no
terminal token occurs earlier, the EOF marker is unique and final when
present, and the producer emits nothing after the tail. The error-then-EOF
tail really occurs: the run on the one-NUL input completes with exactly
that stream. (On inputs whose dispatch reaches an unrecognized character
the run panics and no end marker is ever emitted.) -/
theorem c9_stream_terminal_tail :
    (∀ (fuel : Nat) (input : List Char) (toks : List BL.Tok),
      BL.betterLex fuel input = .ok toks → BL.wellTerminated toks) ∧
    BL.betterLex 5 [Char.ofNat 0] =
      .ok [⟨.err, [Char.ofNat 0]⟩, ⟨.eofT, []⟩] :=
  ⟨fun fuel input toks h => brun_ok_ends fuel .anything ⟨[], input⟩ toks h,
   rfl⟩

/-- Witness for C9 on the input `5`: the produced stream is the integer
token followed by one final EOF marker. -/
theorem c9_stream_terminal_tail_witness :
    BL.wellTerminated [⟨.integer, ['5']⟩, ⟨.eofT, []⟩] :=
  c9_stream_terminal_tail.1 9 ['5'] [⟨.integer, ['5']⟩, ⟨.eofT, []⟩] rfl

/-- Witness for C5's universal conjunct at the concrete subscript `k`: the
successful parse is an index-access call on the instance variable. -/
theorem c5_atsign_bracket_is_index_witness :
    (∃ k, Node.callExpression (some (.instanceVariable "x"))
        (.bareReference "[]") [.bareReference "k"] =
      .callExpression (some (.instanceVariable "x")) (.bareReference "[]")
        [k]) ∨
    (∃ k v, Node.callExpression (some (.instanceVariable "x"))
        (.bareReference "[]") [.bareReference "k"] =
      .callExpression (some (.instanceVariable "x")) (.bareReference "[]=")
        [k, v]) :=
  c5_atsign_bracket_is_index.2.2 10 "x" [.ref "k".toList, .rbracket]
    (.callExpression (some (.instanceVariable "x")) (.bareReference "[]")
      [.bareReference "k"]) [] rfl
